import Mathlib

/-!
Verification development for the discovery-match-copy engine of
mora_the_explorer (src/mora_the_explorer/explorer/checknmr.py and
src/mora_the_explorer/explorer/explorer.py).

The Python source is shallowly embedded: Python `str` values become `String`
(a list of code points, matching Python's code-point indexing and slicing),
mutable directory trees become the inductive `FSTree`, a destination
directory becomes an association list from folder names to trees, and
in-place mutation of configuration dictionaries becomes explicit state
passing.  Python exceptions that escape a function are modelled with
`Except Unit`.  Unbounded `while` loops are given explicit fuel together
with lemmas showing the fuel chosen at the call sites is always sufficient.
-/

/-! ## Python string primitives

Python strings are sequences of code points; `String.data` gives exactly
that, so slicing `s[:n]` / `s[n:]` is `take` / `drop` on `.data`. -/

/-- Python `s[i]` on a list: `IndexError` becomes `Except.error ()`. -/
def pyIndex {α : Type} (l : List α) (i : Nat) : Except Unit α :=
  match l.get? i with
  | some x => Except.ok x
  | none => Except.error ()

/-- Python `s[:n]` for a string. -/
def strTake (s : String) (n : Nat) : String := String.mk (s.data.take n)

/-- Python `s[n:]` for a string. -/
def strDrop (s : String) (n : Nat) : String := String.mk (s.data.drop n)

/-- Core of whitespace splitting: the flag records whether the input began
with a non-whitespace character, so that a preceding character can be
prepended to the head word. -/
def splitWsCore : List Char → List (List Char) × Bool
  | [] => ([], false)
  | c :: rest =>
    let (ws, cont) := splitWsCore rest
    if c.isWhitespace then (ws, false)
    else
      match ws, cont with
      | w :: rest', true => ((c :: w) :: rest', true)
      | _, _ => ([c] :: ws, true)

/-- Python `str.split()` (no argument): split on runs of whitespace, with no
empty fields.  Restricted to ASCII whitespace, which is all that occurs in
the spectrometer title files. -/
def splitWsL (l : List Char) : List (List Char) := (splitWsCore l).1

/-- Python `str.split()` on a `String`. -/
def pySplit (s : String) : List String := (splitWsL s.data).map String.mk

/-- Python `str.split(sep)` for a single-character separator. -/
def splitOnCharL (sep : Char) : List Char → List (List Char)
  | [] => [[]]
  | c :: rest =>
    let r := splitOnCharL sep rest
    if c = sep then [] :: r
    else (c :: r.headD []) :: r.tail

/-- Python `line.split(",")`. -/
def pySplitComma (s : String) : List String :=
  (splitOnCharL ',' s.data).map String.mk

/-- Fuelled core of `str.replace`: every step consumes at least one input
character, so fuel equal to the input length always suffices. -/
def replaceFuel (pat rep : List Char) : Nat → List Char → List Char
  | 0, l => l
  | _ + 1, [] => []
  | fuel + 1, c :: rest =>
    if pat ≠ [] ∧ pat.isPrefixOf (c :: rest) then
      rep ++ replaceFuel pat rep fuel (List.drop pat.length (c :: rest))
    else
      c :: replaceFuel pat rep fuel rest

/-- Python `str.replace(old, new)`: leftmost non-overlapping occurrences.
Only ever used with a non-empty pattern, as in the source. -/
def replaceL (pat rep s : List Char) : List Char := replaceFuel pat rep s.length s

/-- Python `str.replace` on `String`s. -/
def pyReplace (s pat rep : String) : String :=
  String.mk (replaceL pat.data rep.data s.data)

/-- Python `needle in hay` for lists (contiguous sublist test). -/
def hasSublistL (needle : List Char) : List Char → Bool
  | [] => needle.isEmpty
  | c :: rest => needle.isPrefixOf (c :: rest) || hasSublistL needle rest

/-- Python `needle in hay` for strings (substring test). -/
def strContains (hay needle : String) : Bool := hasSublistL needle.data hay.data

/-- Python `sep.join(parts)`. -/
def pyJoin (sep : String) : List String → String
  | [] => ""
  | [x] => x
  | x :: y :: rest => x ++ sep ++ pyJoin sep (y :: rest)

/-- Association-list lookup, modelling Python `dict` access and path lookup
in a directory listing (first binding wins). -/
def lookupS {β : Type} : List (String × β) → String → Option β
  | [], _ => none
  | p :: rest, k => if p.1 = k then some p.2 else lookupS rest k

/-! ## Filesystem model

A tree is a file (content bytes plus an abstract stat signature standing
for the size/mtime metadata that `filecmp`'s shallow comparison uses) or a
directory with named children. -/

inductive FSTree where
  | file (content : List Nat) (meta : Nat)
  | dir (children : List (String × FSTree))

/-- Top-level entries of a tree (a file has none). -/
def FSTree.childrenL : FSTree → List (String × FSTree)
  | .file _ _ => []
  | .dir cs => cs

def FSTree.isDirB : FSTree → Bool
  | .file _ _ => false
  | .dir _ => true

/-- Child of a directory by name, as `path / name` resolution. -/
def lookupChild (t : FSTree) (n : String) : Option FSTree := lookupS t.childrenL n

/-- A destination directory: named spectrum folders. -/
abbrev Dir := List (String × FSTree)

def lookupD (d : Dir) (n : String) : Option FSTree := lookupS d n

/-- Creation of a new entry (only ever done for a name that is absent). -/
def insertD (d : Dir) (n : String) (t : FSTree) : Dir := d ++ [(n, t)]

/-- In-place replacement of the tree at an existing name. -/
def updateD (d : Dir) (n : String) (t : FSTree) : Dir :=
  d.map (fun p => if p.1 = n then (n, t) else p)

/-! ## compare_spectra (checknmr.py lines 260-333) -/

/-- Files used to decide whether two folders hold the same measurement. -/
def diagnostic_files : List String := ["fid", "audita.txt"]

/-- filecmp.cmp with shallow=False: both sides must be regular files with
equal content (missing files or directories land in the errors bucket). -/
def deepEqFile : Option FSTree → Option FSTree → Bool
  | some (.file c1 _), some (.file c2 _) => c1 = c2
  | _, _ => false

/-- filecmp.cmp with shallow=True: equal stat signatures short-circuit to
true, otherwise the contents are compared. -/
def shallowEqFile : Option FSTree → Option FSTree → Bool
  | some (.file c1 m1), some (.file c2 m2) => m1 = m2 || c1 = c2
  | _, _ => false

/-- Matches bucket of `filecmp.cmpfiles(a, b, names, shallow=False)`. -/
def cmpMatches (a b : FSTree) (names : List String) : List String :=
  names.filter (fun n => deepEqFile (lookupChild a n) (lookupChild b n))

/-- Loop over the subdirectories of the server folder, stopping at the first
one whose diagnostic files match the same-named destination subdirectory. -/
def subdirScan (s d : FSTree) : Bool :=
  (s.childrenL.filter (fun c => c.2.isDirB)).any
    (fun c =>
      !(cmpMatches c.2 ((lookupChild d c.1).getD (.dir [])) diagnostic_files).isEmpty)

/-- same_files of `filecmp.dircmp(s, d)`: common top-level files that compare
equal under the shallow comparison. -/
def commonShallowSame (s d : FSTree) : List String :=
  (s.childrenL.map Prod.fst).filter
    (fun n => shallowEqFile (lookupChild s n) (lookupChild d n))

/-- left_only of `filecmp.dircmp(s, d)`: top-level names present in the
server folder but absent from the destination folder. -/
def leftOnly (s d : FSTree) : List String :=
  (s.childrenL.map Prod.fst).filter (fun n => (lookupChild d n).isNone)

/-- compare_spectra: `(same, incomplete)`. -/
def compare_spectra (s d : FSTree) : Bool × Bool :=
  let same1 := !(cmpMatches s d diagnostic_files).isEmpty
  let same2 := same1 || subdirScan s d
  let same := same2 || !(commonShallowSame s d).isEmpty
  let incomplete := if same then !(leftOnly s d).isEmpty else false
  (same, incomplete)

/-! ## copy_folder (checknmr.py lines 336-404)

Copy failures from missing write permission are environmental and are not
modelled: every copy succeeds. -/

/-- One step of the repair loop: a source entry is copied only if no entry
of that name is present yet. -/
def repairChildren (tc : List (String × FSTree)) :
    List (String × FSTree) → List (String × FSTree)
  | [] => tc
  | c :: rest =>
    if (lookupS tc c.1).isSome then repairChildren tc rest
    else repairChildren (tc ++ [c]) rest

/-- Final section of copy_folder once a same-measurement folder `nm` holding
tree `t` has been identified: repair it if incomplete, otherwise no-op. -/
def applyFix (dest : Dir) (src : FSTree) (nm : String) (t : FSTree) (inc : Bool) :
    Dir × List String :=
  if inc then
    (updateD dest nm (.dir (repairChildren t.childrenL src.childrenL)),
      ["New files found for: " ++ nm])
  else (dest, [])

/-- Outcome of the candidate-renaming while loop. -/
inductive SearchResult where
  | fresh (nm : String)
  | found (nm : String) (t : FSTree) (inc : Bool)

/-- The while loop of copy_folder: append `-2`, `-3`, ... to the current
target name (cumulatively, as `target.with_name(target.name + "-" + str(num))`
does) until a non-existing name or a same-measurement folder is reached.
The loop is fuelled; `searchCandidate_isSome` shows the fuel used by
`copy_folder` always suffices. -/
def searchCandidate (dest : Dir) (src : FSTree) :
    String → Nat → Nat → Option SearchResult
  | _, _, 0 => none
  | name, num, fuel + 1 =>
    match lookupD dest (name ++ "-" ++ toString (num + 1)) with
    | none => some (.fresh (name ++ "-" ++ toString (num + 1)))
    | some t =>
      match compare_spectra src t with
      | (true, inc) => some (.found (name ++ "-" ++ toString (num + 1)) t inc)
      | (false, _) =>
        searchCandidate dest src (name ++ "-" ++ toString (num + 1)) (num + 1) fuel

/-- Length of the longest name in the destination directory; once a
candidate name is longer than this, it cannot exist. -/
def maxKeyLen (d : Dir) : Nat := d.foldr (fun p m => max p.1.data.length m) 0

/-- copy_folder: returns the new destination directory together with the
output message list. -/
def copy_folder (dest : Dir) (src : FSTree) (target : String) : Dir × List String :=
  match lookupD dest target with
  | none =>
    (insertD dest target src, ["Spectrum found: " ++ target])
  | some t0 =>
    match compare_spectra src t0 with
    | (true, inc) => applyFix dest src target t0 inc
    | (false, _) =>
      match searchCandidate dest src target 1 (maxKeyLen dest + 2) with
      | some (.found nm t inc) => applyFix dest src nm t inc
      | some (.fresh nm) => (insertD dest nm src, ["Spectrum found: " ++ nm])
      | none => (dest, [])

/-! ## Metadata records (the dicts built by get_metadata_bruker /
get_metadata_agilent, checknmr.py lines 104-170) -/

structure Metadata where
  server_location : String
  group : Option String
  initials : String
  sample_info : Option (List String)
  experiment : Option String
  solvent : Option String
  frequency : Option String
deriving DecidableEq

/-- get_metadata_bruker (checknmr.py lines 104-145).  The title file is
given as its list of lines; a raised `IndexError` is `Except.error ()`.
In the branch for a first line of at least three tokens whose second token
is longer than three characters, the Python source stores
`[title[1][3:]].extend(title[2:])`; `list.extend` returns `None`, so the
stored sample_info is `None`, which this embedding renders as `none`. -/
def get_metadata_bruker (titleContents : List String) (serverLocation : String) :
    Except Unit Metadata := do
  let line0 ← pyIndex titleContents 0
  let line1 ← pyIndex titleContents 1
  let title := pySplit line0
  let details := pyIndex (pySplit line1)
  if title.length ≥ 3 then
    let t0 ← pyIndex title 0
    let t1 ← pyIndex title 1
    let sample_info : Option (List String) ←
      if t1.data.length ≤ 3 then
        Except.ok (some (title.drop 2))
      else
        Except.ok none
    let initials := if t1.data.length ≤ 3 then t1 else strTake t1 3
    let experiment ← details 0
    let solvent ← details 1
    Except.ok
      { server_location := serverLocation, group := some t0, initials := initials,
        sample_info := sample_info, experiment := some experiment,
        solvent := some solvent, frequency := none }
  else if title.length ≥ 2 then
    let t0 ← pyIndex title 0
    let t1 ← pyIndex title 1
    let c3 ← pyIndex t1.data 3
    let sample_info := if c3.isAlphanum then [strDrop t1 3] else [strDrop t1 4]
    let experiment ← details 0
    let solvent ← details 1
    Except.ok
      { server_location := serverLocation, group := some t0, initials := strTake t1 3,
        sample_info := some sample_info, experiment := some experiment,
        solvent := some solvent, frequency := none }
  else
    Except.error ()

/-- The magnet-frequency loop of get_metadata_agilent (checknmr.py lines
150-159).  Each immediate subfolder is given as `none` when it holds no
`text` file and as `some lines` otherwise.  Every subfolder is visited in
order; each one holding a `text` file overwrites the frequency, and a
`text` file with fewer than four lines raises `IndexError`. -/
def agilentFreqStep (freq : Option String) (sub : Option (List String)) :
    Except Unit (Option String) :=
  match sub with
  | none => Except.ok freq
  | some lines => do
    let l3 ← pyIndex lines 3
    let field0 ← pyIndex (pySplitComma l3) 0
    Except.ok (some field0)

def agilent_freq_scan (subs : List (Option (List String))) :
    Except Unit (Option String) :=
  subs.foldlM agilentFreqStep none

/-- get_metadata_agilent (checknmr.py lines 148-170). -/
def get_metadata_agilent (folderName serverLocation : String)
    (subs : List (Option (List String))) : Except Unit Metadata := do
  let freq ← agilent_freq_scan subs
  Except.ok
    { server_location := serverLocation, group := none,
      initials := strTake folderName 3,
      sample_info := some [strDrop folderName 3],
      experiment := none, solvent := none, frequency := freq }

/-! ## Name formatting (checknmr.py lines 173-257) -/

/-- Characters allowed verbatim in destination names besides alphanumerics. -/
def allowed_symbols : List Char := ['-', '_', ' ']

/-- A character the sanitizer replaces: one that fails the alphanumeric
classifier and is not an allowed symbol.  Python's `str.isalnum` is
Unicode-aware (it accepts, e.g., µ, α, é), so the classifier is passed in
as an oracle `alnum : Char → Bool`, exactly like the strftime and
path-existence oracles; every theorem about sanitization assumes of it
only what `str.isalnum` satisfies (it accepts every ASCII alphanumeric). -/
def isSpecial (alnum : Char → Bool) (c : Char) : Bool :=
  !alnum c && !allowed_symbols.contains c

/-- The ASCII restriction of Python's `str.isalnum`.  It agrees with
`str.isalnum` on every ASCII character, so instantiating the classifier
oracle with it is faithful on inputs made of ASCII characters only (as in
the concrete fixtures below); on non-ASCII alphanumerics `str.isalnum`
returns True while this returns false. -/
def asciiAlnum (c : Char) : Bool := c.isAlphanum

/-- Digit of Python `hex()`: lowercase hexadecimal. -/
def hexDigitChar (d : Nat) : Char :=
  if d < 10 then Char.ofNat (48 + d) else Char.ofNat (87 + d)

/-- Fuelled most-significant-first hexadecimal digit expansion; fuel `n + 1`
always suffices since the value shrinks by a factor of 16 per step. -/
def hexDigitsCore : Nat → Nat → List Char → List Char
  | 0, _, acc => acc
  | fuel + 1, n, acc =>
    if n < 16 then hexDigitChar n :: acc
    else hexDigitsCore fuel (n / 16) (hexDigitChar (n % 16) :: acc)

def hexDigits (n : Nat) : List Char := hexDigitsCore (n + 1) n []

/-- Python `str(hex(ord(x)))`: `0x` followed by lowercase hex digits. -/
def hexCode (c : Char) : List Char := '0' :: 'x' :: hexDigits c.toNat

/-- Python `str.replace(old, new)` for a single-character pattern. -/
def replaceChar (s : List Char) (x : Char) (r : List Char) : List Char :=
  s.flatMap (fun c => if c = x then r else [c])

/-- Distinct elements of a character list, first occurrences kept.  Python
iterates over `set(...)`, whose order is unspecified; the order does not
affect the result because each replacement string contains no special
characters, so successive replacements never interfere. -/
def dedupSeen (seen : List Char) : List Char → List Char
  | [] => []
  | c :: rest =>
    if c ∈ seen then dedupSeen seen rest
    else c :: dedupSeen (c :: seen) rest

/-- The special characters occurring in a name, each once. -/
def specialsIn (alnum : Char → Bool) (s : List Char) : List Char :=
  dedupSeen [] (s.filter (isSpecial alnum))

/-- The sanitation loop of format_name (checknmr.py lines 227-231). -/
def sanitize (alnum : Char → Bool) (s : List Char) : List Char :=
  (specialsIn alnum s).foldl (fun acc x => replaceChar acc x (hexCode x)) s

def sanitizeStr (alnum : Char → Bool) (s : String) : String :=
  String.mk (sanitize alnum s.data)

/-- format_name (checknmr.py lines 173-232).  `alnum` is the
`str.isalnum` classifier oracle.  Returns `none` when
`metadata["sample_info"]` is `None`, in which case the Python list
splat `*metadata["sample_info"]` raises `TypeError`. -/
def format_name (alnum : Char → Bool) (folderParentName folderName : String)
    (m : Metadata)
    (inc_group inc_init inc_solv nmrcheck_style : Bool) : Option String :=
  match m.sample_info with
  | none => none
  | some sample =>
    let name :=
      if nmrcheck_style then
        pyJoin "_" ([m.initials] ++ sample ++ [folderParentName, folderName])
      else
        pyJoin "-" (sample ++ (match m.experiment with | some e => [e] | none => []))
    let name :=
      if nmrcheck_style then name
      else if inc_init then m.initials ++ "-" ++ name else name
    let name :=
      if nmrcheck_style then name
      else
        match m.group, inc_group with
        | some g, true => g ++ "-" ++ name
        | _, _ => name
    let name :=
      match m.solvent, inc_solv with
      | some sv, true => name ++ "-" ++ sv
      | _, _ => name
    let name :=
      match m.frequency with
      | some f => name ++ "_" ++ f
      | none => name
    some (sanitizeStr alnum name)

/-- The `inc_path` option of format_name_admin: Python `False`, `True`,
`"before"` or `"after"`. -/
inductive IncPath where
  | no
  | yes
  | before
  | after
deriving DecidableEq

/-- The location string of format_name_admin: the server location with path
separators replaced by underscores. -/
def adminLocation (m : Metadata) : String :=
  String.mk (m.server_location.data.map (fun c => if c = '/' ∨ c = '\\' then '_' else c))

/-- format_name_admin (checknmr.py lines 235-257). -/
def format_name_admin (alnum : Char → Bool) (folderParentName folderName : String)
    (m : Metadata) (inc_solv : Bool) (inc_path : IncPath) : Option String :=
  (format_name alnum folderParentName folderName m true true inc_solv false).map
    (fun name =>
      match inc_path with
      | .no => name
      | .yes => adminLocation m ++ "_" ++ name
      | .before => adminLocation m ++ "_" ++ name
      | .after => name ++ "_" ++ adminLocation m)

/-! ## The match decision of check_nmr (checknmr.py lines 530-539) -/

/-- The two equality tests applied to extracted metadata; `hit0` is the
value of the `hit` flag before these tests (`true` for an Agilent folder
that passed the folder-name substring pre-check, `false` otherwise).
Neither test can reset the flag to `false`. -/
def metadata_hit (fedInitials fedGroup : String) (md : Metadata) (hit0 : Bool) : Bool :=
  if md.initials = fedInitials then true
  else if fedGroup = "nmr" ∧ md.group = some fedInitials then true
  else hit0

/-! ## get_check_paths (checknmr.py lines 10-85)

Filesystem existence (`Path.exists`) and date formatting
(`datetime.strftime`) are environmental and supplied as oracles.  The
in-place `raw_path_list.extend(spec_info["archives"])`, which mutates the
list stored in the `specs_info` mapping, is modelled by returning the
updated mapping alongside the path list. -/

structure SpecInfo where
  manufacturer : String
  check_paths : List String
  archives : Option (List String)
  spec_dir : String
  date_fmt : Option String
  includes : Option (List String)
deriving DecidableEq

/-- Python dict item assignment semantics for the spectrometer mapping. -/
def updateSpec (specs : List (String × SpecInfo)) (k : String) (v : SpecInfo) :
    List (String × SpecInfo) :=
  specs.map (fun p => if p.1 = k then (k, v) else p)

/-- Python `dict[key]`: `KeyError` becomes `Except.error ()`. -/
def pyDictGet {β : Type} (d : List (String × β)) (k : String) : Except Unit β :=
  match lookupS d k with
  | some v => Except.ok v
  | none => Except.error ()

/-- `Path.name`: the final path component. -/
def lastComponent (p : String) : String :=
  String.mk ((splitOnCharL '/' p.data).getLastD [])

/-- `Path.with_name`: replace the final path component. -/
def withNameStr (p n : String) : String :=
  String.mk (((splitOnCharL '/' p.data).dropLast.map (· ++ ['/'])).flatten ++ n.data)

/-- Overflow probing (checknmr.py lines 65-71): candidates `_2`, `_3`, ...
are appended while they exist, stopping at the first missing number; the
fuel 18 at the call site realises `range(2, 20)`. -/
def overflowFrom (pexists : String → Bool) (p : String) : Nat → Nat → List String
  | _, 0 => []
  | num, fuel + 1 =>
    let cand := withNameStr p (lastComponent p ++ "_" ++ toString num)
    if pexists cand then cand :: overflowFrom pexists p (num + 1) fuel else []

/-- Removal of any leftover angle brackets after substitution. -/
def scrubAngles (s : String) : String := pyReplace (pyReplace s "<" "") ">" ""

/-- The substitution loop of get_check_paths (lines 30-58).  `fdOpt` is
`none` when the spectrometer configuration has no "date" key, in which case
the first use of `formatted_date` raises `NameError`.  In the wild-group
branch the accumulated `wild_check_path_list` is extended onto
`check_path_list` inside the per-group loop, exactly as in the source. -/
def buildCheckPaths (strf : String → String) (fdOpt : Option String)
    (specDir : String) (groups : List (String × String)) (grp : String)
    (wild : Bool) (raw : List String) : Except Unit (List String) :=
  raw.foldlM
    (fun cpl path => do
      let fd ← (match fdOpt with
        | some f => Except.ok f
        | none => Except.error ())
      let p2 := strf (pyReplace (pyReplace path "<spec_dir>" specDir) "<date>" fd)
      if wild = false then
        let gname ← pyDictGet groups grp
        Except.ok (cpl ++ [scrubAngles (pyReplace (pyReplace p2 "<group>" grp) "<group name>" gname)])
      else
        let step := groups.foldl
          (fun (st : List String × List String) g =>
            let wl := st.1 ++
              [scrubAngles (pyReplace (pyReplace p2 "<group>" g.1) "<group name>" g.2)]
            (wl, st.2 ++ wl))
          ([], cpl)
        Except.ok step.2)
    []

/-- get_check_paths, resolving each spectrometer of a worklist in order;
the tail of the worklist carries the recursion over `include`-d
spectrometers.  The fuel bounds the total number of resolutions; Python
recurses unboundedly on a cyclic `include` configuration, which here
surfaces as fuel exhaustion. -/
def gcpList (strf : String → String) (pexists : String → Bool)
    (server_path : String) (yearDiffers : Bool)
    (groups : List (String × String)) (grp : String) (wild : Bool) :
    Nat → List (String × SpecInfo) → List String →
    Except Unit (List (String × SpecInfo) × List String)
  | 0, specs, l => match l with
    | [] => Except.ok (specs, [])
    | _ :: _ => Except.error ()
  | _ + 1, specs, [] => Except.ok (specs, [])
  | fuel + 1, specs, spec :: rest => do
    let spec_info ← pyDictGet specs spec
    let step1 :=
      match yearDiffers, spec_info.archives with
      | true, some arch =>
        let si := { spec_info with check_paths := spec_info.check_paths ++ arch }
        (si, updateSpec specs spec si)
      | true, none => (spec_info, specs)
      | false, _ => (spec_info, specs)
    let si := step1.1
    let specs1 := step1.2
    let fdOpt := si.date_fmt.map strf
    let cpl ← buildCheckPaths strf fdOpt si.spec_dir groups grp wild si.check_paths
    let joined := cpl.map (fun p => server_path ++ "/" ++ p)
    let existing := joined.filter pexists
    let cpl2 := existing ++ existing.flatMap (fun p => overflowFrom pexists p 2 18)
    let inner ←
      match si.includes with
      | none => Except.ok (specs1, cpl2)
      | some incs =>
        (gcpList strf pexists server_path yearDiffers groups grp wild fuel specs1 incs).map
          (fun r => (r.1, cpl2 ++ r.2))
    let tailR ← gcpList strf pexists server_path yearDiffers groups grp wild fuel inner.1 rest
    Except.ok (tailR.1, inner.2 ++ tailR.2)

/-- One invocation of get_check_paths for a single spectrometer. -/
def get_check_paths (strf : String → String) (pexists : String → Bool)
    (server_path : String) (yearDiffers : Bool)
    (groups : List (String × String)) (grp : String) (wild : Bool)
    (fuel : Nat) (specs : List (String × SpecInfo)) (spec : String) :
    Except Unit (List (String × SpecInfo) × List String) :=
  gcpList strf pexists server_path yearDiffers groups grp wild fuel specs [spec]

/-! ## check_nmr (checknmr.py lines 419-585)

Progress-bar and status callbacks only emit notifications and do not feed
back into the returned message list; they are not modelled. -/

/-- One candidate spectrum folder as found on the share: its name, its
location relative to the share root, the contents of its Bruker
`pdata/1/title` file (`none` when absent, raising `FileNotFoundError`), the
per-experiment `text` files of its subfolders for the Agilent format, and
its file tree for copying. -/
structure SpecFolder where
  name : String
  server_location : String
  title_file : Option (List String)
  text_subs : List (Option (List String))
  tree : FSTree

/-- The `fed_options` mapping fields read by check_nmr. -/
structure FedOptions where
  dest_path : String
  spec : String
  group : String
  initials : String
  inc_init : Bool
  inc_solv : Bool
  inc_path : IncPath
  nmrcheck_style : Bool

/-- The environment of one check: reachability of the destination and the
share, the strftime and path-existence oracles, the folder listing of each
candidate path, and whether the requested date lies in a previous year. -/
structure World where
  dest_exists : Bool
  server_exists : Bool
  strf : String → String
  pexists : String → Bool
  folders_at : String → List SpecFolder
  year_differs : Bool

/-- Tail of the per-folder body of check_nmr once metadata has been
extracted (lines 530-572): the match decision, name formatting and the
copy.  `hit0` is the value of `hit` going in (`true` only for an Agilent
folder that passed the substring pre-check).  A `sample_info` of `None`
makes format_name raise `TypeError`, which nothing catches. -/
def afterMeta (alnum : Char → Bool) (fed : FedOptions) (checkPath : String) (f : SpecFolder)
    (out : List String) (dest : Dir) (md : Metadata) (hit0 : Bool) :
    Except Unit (List String × Dir) :=
  let hit := metadata_hit fed.initials fed.group md hit0
  if hit = false then Except.ok (out, dest)
  else
    let nameO :=
      if fed.group = "nmr" then
        format_name_admin alnum (lastComponent checkPath) f.name md fed.inc_solv fed.inc_path
      else
        format_name alnum (lastComponent checkPath) f.name md false fed.inc_init
          fed.inc_solv fed.nmrcheck_style
    match nameO with
    | none => Except.error ()
    | some nm =>
      let r := copy_folder dest f.tree nm
      Except.ok (out ++ r.2, r.1)

/-- The per-folder body of check_nmr (lines 499-572): metadata extraction
with its `FileNotFoundError` / `IndexError` handlers, the Agilent
folder-name substring pre-check, then `afterMeta`. -/
def processFolder (alnum : Char → Bool) (fed : FedOptions) (manufacturer : String) (checkPath : String)
    (st : List String × Dir) (f : SpecFolder) : Except Unit (List String × Dir) :=
  let out := st.1
  let dest := st.2
  if manufacturer = "bruker" then
    match f.title_file with
    | none =>
      Except.ok (out ++ ["No metadata could be found for " ++ checkPath ++ "/" ++ f.name ++ "!"], dest)
    | some lines =>
      match get_metadata_bruker lines f.server_location with
      | .error _ => Except.ok (out, dest)
      | .ok md => afterMeta alnum fed checkPath f out dest md false
  else if manufacturer = "agilent" then
    if strContains f.name fed.initials then
      match get_metadata_agilent f.name f.server_location f.text_subs with
      | .error _ => Except.ok (out, dest)
      | .ok md => afterMeta alnum fed checkPath f out dest md true
    else Except.ok (out, dest)
  else Except.error ()

/-- check_nmr.  `dest0` is the current contents of the destination root,
`check_date_str` and `now` the formatted date and time stamps. -/
def check_nmr (alnum : Char → Bool) (fed : FedOptions) (w : World) (specs : List (String × SpecInfo))
    (groups : List (String × String)) (wild_group : Bool) (server_path : String)
    (dest0 : Dir) (check_date_str now : String) : Except Unit (List String) := do
  let output0 := ["No new spectra"]
  if w.dest_exists = false then
    return output0 ++ ["Given destination folder not found!"]
  if w.server_exists = false then
    return output0 ++ ["The NMR server could not be reached!"]
  let spec_info ← pyDictGet specs fed.spec
  let r ← get_check_paths w.strf w.pexists server_path w.year_differs groups
    fed.group wild_group (specs.length + 1) specs fed.spec
  let check_path_list := r.2
  if check_path_list.isEmpty then
    return output0 ++ ["No folders exist for this date!"]
  let st ← check_path_list.foldlM
    (fun st cp =>
      (w.folders_at cp).foldlM
        (fun st2 f => processFolder alnum fed spec_info.manufacturer cp st2 f) st)
    (output0, dest0)
  return st.1 ++ ["Check of " ++ check_date_str ++ " completed at " ++ now]

/-! ## multiday_check (explorer.py lines 110-130)

Dates are modelled as integers counting days, so `timedelta(days=1)` is
`+ 1`.  The `while date_to_check != end_date` loop is fuelled; the loop
tests disequality, not ordering, so a start date in the future never meets
the end marker and exhausts any fuel, modelling nontermination. -/

def multidayGo (endD : Int) : Nat → Int → Option (List Int)
  | 0, d => if d = endD then some [] else none
  | fuel + 1, d =>
    if d = endD then some []
    else (multidayGo endD fuel (d + 1)).map (fun l => d :: l)

/-- multiday_check: the list of dates for which a single check is queued,
in queueing order; `today` is `date.today()`. -/
def multiday_check (initial today : Int) (fuel : Nat) : Option (List Int) :=
  multidayGo (today + 1) fuel initial

/-! ## Specification-side helpers and concrete fixtures -/

/-- The names the while loop of copy_folder tries: `candName target 1` is
the original target and each later candidate appends one more `-n` to its
predecessor (so candidate 3 is named `<target>-2-3`). -/
def candName (target : String) : Nat → String
  | 0 => target
  | 1 => target
  | n + 2 => candName target (n + 1) ++ "-" ++ toString (n + 2)

/-- Numeric value of a lowercase hexadecimal digit, for decoding. -/
def hexDigitVal (c : Char) : Nat :=
  if c.toNat ≥ 97 then c.toNat - 87 else c.toNat - 48

/-- Value of a most-significant-first hexadecimal digit string. -/
def hexVal (l : List Char) : Nat := l.foldl (fun a c => 16 * a + hexDigitVal c) 0

/-- A destination holding two distinct measurements named `x` and `x-2`,
with a third distinct measurement arriving as source. -/
def destC2 : Dir := [("x", .dir [("fid", .file [1] 1)]), ("x-2", .dir [("fid", .file [2] 2)])]

def srcC2 : FSTree := .dir [("fid", .file [3] 3)]

/-- A destination already holding a complete copy of the source below. -/
def destC6 : Dir := [("x", .dir [("fid", .file [1] 1)])]

def srcC6 : FSTree := .dir [("fid", .file [1] 1)]

/-- A destination holding a partial copy (missing `new`) of the source below. -/
def destC1 : Dir := [("x", .dir [("fid", .file [1] 1), ("sub", .dir [])])]

def srcC1 : FSTree := .dir [("fid", .file [1] 1), ("new", .file [9] 9)]

/-- Search options of a plain (non-administrative) user with initials `bcd`. -/
def fedC3 : FedOptions :=
  { dest_path := "d", spec := "hf", group := "g", initials := "bcd", inc_init := false,
    inc_solv := false, inc_path := .no, nmrcheck_style := false }

/-- An Agilent spectrum folder whose name contains `bcd` as a substring but
whose extracted initials are `abc`. -/
def agFolderC3 : SpecFolder :=
  { name := "abcd1", server_location := "hf/abcd1",
    title_file := none, text_subs := [some ["a", "b", "c", "500,z"]],
    tree := .dir [("exp1", .dir [("fid", .file [7] 7)])] }

def worldC3 : World :=
  { dest_exists := true, server_exists := true, strf := id,
    pexists := fun p => p = "srv/hf", folders_at := fun _ => [agFolderC3],
    year_differs := false }

def specsC3 : List (String × SpecInfo) :=
  [("hf", { manufacturer := "agilent", check_paths := ["hf"], archives := none,
            spec_dir := "hf", date_fmt := some "%y", includes := none })]

/-- A world whose destination root does not exist. -/
def worldC9 : World :=
  { dest_exists := false, server_exists := true, strf := id, pexists := fun _ => true,
    folders_at := fun _ => [], year_differs := false }

/-- A spectrometer configured with an archive path, for a previous-year check. -/
def siC8 : SpecInfo :=
  { manufacturer := "agilent", check_paths := ["p"], archives := some ["a"],
    spec_dir := "hf", date_fmt := some "%y", includes := none }

/-- Metadata whose server location contains a character that is neither
alphanumeric nor space, hyphen or underscore. -/
def mC5 : Metadata :=
  { server_location := "a.b", group := some "g", initials := "abc",
    sample_info := some ["s"], experiment := some "proton", solvent := some "CDCl3",
    frequency := none }

/-- Metadata whose sample description contains an en dash (U+2013). -/
def mW5 : Metadata :=
  { server_location := "", group := none, initials := "x",
    sample_info := some ["a–b"], experiment := none, solvent := none,
    frequency := none }

/-- Metadata whose sample description contains µ (U+00B5), which Python's
Unicode-aware str.isalnum accepts although it lies outside [A-Za-z0-9]. -/
def mU5 : Metadata :=
  { server_location := "", group := none, initials := "x",
    sample_info := some ["aµb"], experiment := none, solvent := none,
    frequency := none }

/-! ## Association-list lemmas -/

theorem lookupS_append_some {β : Type} (l l2 : List (String × β)) (k : String) (v : β)
    (h : lookupS l k = some v) : lookupS (l ++ l2) k = some v := by
  induction l with
  | nil => simp [lookupS] at h
  | cons p rest ih =>
    simp only [lookupS, List.cons_append] at h ⊢
    split at h
    · simp [*]
    · simp only [*, if_neg]
      exact ih h

theorem lookupS_append_none {β : Type} (l l2 : List (String × β)) (k : String)
    (h : lookupS l k = none) : lookupS (l ++ l2) k = lookupS l2 k := by
  induction l with
  | nil => simp [lookupS]
  | cons p rest ih =>
    simp only [lookupS, List.cons_append] at h ⊢
    split at h
    · exact absurd h (by simp)
    · simp only [*, if_neg]
      exact ih h

theorem lookupD_update_self (d : Dir) (n : String) (t t0 : FSTree)
    (h : lookupD d n = some t0) : lookupD (updateD d n t) n = some t := by
  induction d with
  | nil => simp [lookupD, lookupS] at h
  | cons p rest ih =>
    simp only [lookupD, lookupS, updateD, List.map_cons] at h ⊢
    by_cases hp : p.1 = n
    · simp [hp]
    · simp only [hp, if_false, if_neg hp] at h ⊢
      exact ih h

theorem lookupD_update_ne (d : Dir) (n m : String) (t : FSTree) (h : m ≠ n) :
    lookupD (updateD d n t) m = lookupD d m := by
  induction d with
  | nil => simp [lookupD, lookupS, updateD]
  | cons p rest ih =>
    simp only [lookupD, lookupS, updateD, List.map_cons] at ih ⊢
    by_cases hp : p.1 = n
    · have : n ≠ m := fun hx => h hx.symm
      simp [hp, this, ih]
    · simp only [hp, if_false]
      by_cases hm : p.1 = m
      · simp [hm]
      · simp [hm, ih]

theorem repairChildren_keeps (sc : List (String × FSTree)) :
    ∀ tc c x, lookupS tc c = some x → lookupS (repairChildren tc sc) c = some x := by
  induction sc with
  | nil => intro tc c x h; simpa [repairChildren] using h
  | cons c0 rest ih =>
    intro tc c x h
    simp only [repairChildren]
    split
    · exact ih tc c x h
    · exact ih (tc ++ [c0]) c x (lookupS_append_some tc [c0] c x h)

theorem repairChildren_missing (sc : List (String × FSTree)) :
    ∀ tc c, lookupS tc c = none →
      lookupS (repairChildren tc sc) c = lookupS sc c := by
  induction sc with
  | nil => intro tc c h; simp [repairChildren, lookupS, h]
  | cons c0 rest ih =>
    intro tc c h
    simp only [repairChildren]
    split
    · rename_i hsome
      by_cases hc : c0.1 = c
      · rw [hc] at hsome
        rw [h] at hsome
        simp at hsome
      · rw [ih tc c h]
        simp [lookupS, hc]
    · by_cases hc : c0.1 = c
      · have hx : lookupS (tc ++ [c0]) c = some c0.2 := by
          rw [lookupS_append_none tc [c0] c h]
          simp [lookupS, hc]
        rw [repairChildren_keeps rest (tc ++ [c0]) c c0.2 hx]
        simp [lookupS, hc]
      · have hx : lookupS (tc ++ [c0]) c = none := by
          rw [lookupS_append_none tc [c0] c h]
          simp [lookupS, hc]
        rw [ih (tc ++ [c0]) c hx]
        simp [lookupS, hc]

/-! ## Lemmas about the candidate-renaming loop -/

theorem strData_append (a b : String) : (a ++ b).data = a.data ++ b.data := by
  cases a; cases b; rfl

theorem keyLen_le_of_lookup_some (d : Dir) (nm : String) (t : FSTree)
    (h : lookupD d nm = some t) : nm.data.length ≤ maxKeyLen d := by
  induction d with
  | nil => simp [lookupD, lookupS] at h
  | cons p rest ih =>
    simp only [lookupD, lookupS] at h ih
    have hfold : maxKeyLen (p :: rest) = max p.1.data.length (maxKeyLen rest) := rfl
    rw [hfold]
    split at h
    · rename_i hp
      rw [← hp]
      exact le_max_left _ _
    · exact le_trans (ih h) (le_max_right _ _)

theorem searchCandidate_isSome (dest : Dir) (src : FSTree) :
    ∀ fuel name num, 1 ≤ fuel → maxKeyLen dest + 2 ≤ name.data.length + fuel →
      (searchCandidate dest src name num fuel).isSome := by
  intro fuel
  induction fuel with
  | zero => intro name num h _; exact absurd h (by omega)
  | succ f ih =>
    intro name num _ hlen
    have hgrow : name.data.length + 1 ≤
        (name ++ "-" ++ toString (num + 1)).data.length := by
      simp [strData_append]
    simp only [searchCandidate]
    cases hl : lookupD dest (name ++ "-" ++ toString (num + 1)) with
    | none => simp
    | some t =>
      have hub := keyLen_le_of_lookup_some dest _ t hl
      rcases hcmp : compare_spectra src t with ⟨b1, b2⟩
      cases b1 with
      | true => simp [hcmp]
      | false =>
        simp only [hcmp]
        exact ih _ (num + 1) (by omega) (by omega)

theorem searchCandidate_sound (dest : Dir) (src : FSTree) :
    ∀ fuel name num r, searchCandidate dest src name num fuel = some r →
      (∃ nm, r = .fresh nm ∧ lookupD dest nm = none) ∨
      (∃ nm t inc, r = .found nm t inc ∧ lookupD dest nm = some t ∧
        compare_spectra src t = (true, inc)) := by
  intro fuel
  induction fuel with
  | zero => intro name num r h; simp [searchCandidate] at h
  | succ f ih =>
    intro name num r h
    simp only [searchCandidate] at h
    split at h
    · rename_i hl
      simp only [Option.some.injEq] at h
      exact Or.inl ⟨_, h.symm, hl⟩
    · rename_i t hl
      split at h
      · rename_i inc hcmp
        simp only [Option.some.injEq] at h
        exact Or.inr ⟨_, t, inc, h.symm, hl, hcmp⟩
      · exact ih _ (num + 1) r h

theorem searchCandidate_chain (dest : Dir) (src : FSTree) (target : String) :
    ∀ fuel k r, 1 ≤ k →
      searchCandidate dest src (candName target k) k fuel = some r →
      ∃ n, k < n ∧
        (∀ j, k < j → j < n → ∃ tj, lookupD dest (candName target j) = some tj ∧
          (compare_spectra src tj).1 = false) ∧
        ((r = .fresh (candName target n) ∧ lookupD dest (candName target n) = none) ∨
         (∃ t inc, r = .found (candName target n) t inc ∧
           lookupD dest (candName target n) = some t ∧
           compare_spectra src t = (true, inc))) := by
  intro fuel
  induction fuel with
  | zero => intro k r _ h; simp [searchCandidate] at h
  | succ f ih =>
    intro k r hk h
    have hname : candName target k ++ "-" ++ toString (k + 1) =
        candName target (k + 1) := by
      obtain ⟨m, rfl⟩ : ∃ m, k = m + 1 := ⟨k - 1, by omega⟩
      rfl
    simp only [searchCandidate, hname] at h
    split at h
    · rename_i hl
      simp only [Option.some.injEq] at h
      exact ⟨k + 1, by omega, fun j h1 h2 => absurd h1 (by omega),
        Or.inl ⟨h.symm, hl⟩⟩
    · rename_i t hl
      split at h
      · rename_i inc hcmp
        simp only [Option.some.injEq] at h
        exact ⟨k + 1, by omega, fun j h1 h2 => absurd h1 (by omega),
          Or.inr ⟨t, inc, h.symm, hl, hcmp⟩⟩
      · rename_i b2 hcmp
        obtain ⟨n, hn, hchain, hr⟩ := ih (k + 1) r (by omega) h
        refine ⟨n, by omega, fun j h1 h2 => ?_, hr⟩
        by_cases hj : j = k + 1
        · exact ⟨t, by rw [hj]; exact hl, by rw [hcmp]⟩
        · exact hchain j (by omega) h2

/-- Every run of copy_folder takes one of exactly three shapes: a full
fresh copy to a non-existing name, a repair of an incomplete same
measurement, or a no-op on a complete same measurement. -/
theorem copy_folder_shape (dest : Dir) (src : FSTree) (target : String) :
    (∃ nm, lookupD dest nm = none ∧
      copy_folder dest src target =
        (insertD dest nm src, ["Spectrum found: " ++ nm])) ∨
    (∃ nm t, lookupD dest nm = some t ∧ compare_spectra src t = (true, true) ∧
      copy_folder dest src target =
        (updateD dest nm (.dir (repairChildren t.childrenL src.childrenL)),
         ["New files found for: " ++ nm])) ∨
    (∃ nm t, lookupD dest nm = some t ∧ compare_spectra src t = (true, false) ∧
      copy_folder dest src target = (dest, [])) := by
  unfold copy_folder
  cases h0 : lookupD dest target with
  | none => exact Or.inl ⟨target, h0, rfl⟩
  | some t0 =>
    rcases hcmp : compare_spectra src t0 with ⟨b1, b2⟩
    cases b1 with
    | true =>
      cases b2 with
      | true => exact Or.inr (Or.inl ⟨target, t0, h0, hcmp, by simp [hcmp, applyFix]⟩)
      | false => exact Or.inr (Or.inr ⟨target, t0, h0, hcmp, by simp [hcmp, applyFix]⟩)
    | false =>
      have hsome := searchCandidate_isSome dest src (maxKeyLen dest + 2) target 1
        (by omega) (by omega)
      cases hs : searchCandidate dest src target 1 (maxKeyLen dest + 2) with
      | none => rw [hs] at hsome; simp at hsome
      | some r =>
        rcases searchCandidate_sound dest src _ target 1 r hs with
          ⟨nm, hr, hl⟩ | ⟨nm, t, inc, hr, hl, hc⟩
        · subst hr
          exact Or.inl ⟨nm, hl, by simp [hcmp, hs]⟩
        · subst hr
          cases inc with
          | true => exact Or.inr (Or.inl ⟨nm, t, hl, hc, by simp [hcmp, hs, applyFix]⟩)
          | false => exact Or.inr (Or.inr ⟨nm, t, hl, hc, by simp [hcmp, hs, applyFix]⟩)

/-! ## multiday_check -/

theorem multidayGo_exact (n : Nat) : ∀ d : Int,
    multidayGo (d + n) n d = some ((List.range n).map (fun k : Nat => d + (k : Int))) := by
  induction n with
  | zero =>
    intro d
    have h0 : d + ((0 : Nat) : Int) = d := by push_cast; ring
    rw [h0]
    show (if d = d then some [] else none) = _
    simp
  | succ m ih =>
    intro d
    have harg : d + ((m + 1 : Nat) : Int) = (d + 1) + (m : Int) := by push_cast; ring
    simp only [multidayGo]
    rw [harg, if_neg (by omega), ih (d + 1)]
    simp only [Option.map_some', Option.some.injEq]
    rw [List.range_succ_eq_map]
    simp only [List.map_cons, List.map_map, Nat.cast_zero, add_zero]
    refine List.cons_eq_cons.mpr ⟨rfl, ?_⟩
    apply List.map_congr_left
    intro a _
    simp only [Function.comp_apply]
    push_cast
    ring

/-- C10: for every initial date on or before the current date,
multiday_check terminates (with fuel equal to the number of days) and
queues exactly one single-date check per calendar day from the initial
date through the current date inclusive, in ascending order. -/
theorem multiday_check_enqueues_each_day (initial today : Int)
    (h : initial ≤ today) :
    multiday_check initial today (today + 1 - initial).toNat =
      some ((List.range (today + 1 - initial).toNat).map
        (fun k : Nat => initial + (k : Int))) := by
  set n := (today + 1 - initial).toNat with hdef
  have hn : ((n : Nat) : Int) = today + 1 - initial := Int.toNat_of_nonneg (by omega)
  have harg : today + 1 = initial + ((n : Nat) : Int) := by omega
  unfold multiday_check
  rw [harg, multidayGo_exact]

/-- Witness for C10 at a concrete pair of dates. -/
theorem multiday_check_enqueues_each_day_witness :
    multiday_check 3 5 ((5 : Int) + 1 - 3).toNat = some [3, 4, 5] :=
  (multiday_check_enqueues_each_day 3 5 (by decide)).trans (by decide)

/-! ## check_nmr fail-fast -/

/-- C9: whenever the destination root does not exist, check_nmr returns
exactly `["No new spectra", "Given destination folder not found!"]`; the
result does not depend on any property of the share (paths, folders,
spectrometer configuration) nor on the character classifier, so no share
access occurs. -/
theorem check_nmr_missing_dest (alnum : Char → Bool) (fed : FedOptions) (w : World)
    (specs : List (String × SpecInfo)) (groups : List (String × String))
    (wild_group : Bool) (server_path : String) (dest0 : Dir)
    (check_date_str now : String) (h : w.dest_exists = false) :
    check_nmr alnum fed w specs groups wild_group server_path dest0 check_date_str now =
      Except.ok ["No new spectra", "Given destination folder not found!"] := by
  simp [check_nmr, h, pure, Except.pure]

/-- Witness for C9 at a concrete world. -/
theorem check_nmr_missing_dest_witness :
    check_nmr asciiAlnum fedC3 worldC9 [] [] false "srv" [] "D" "T" =
      Except.ok ["No new spectra", "Given destination folder not found!"] :=
  check_nmr_missing_dest asciiAlnum fedC3 worldC9 [] [] false "srv" [] "D" "T" rfl

/-! ## get_check_paths mutation -/

/-- C8: counter to the claim, get_check_paths does not leave the
spectrometer mapping unchanged: for a previous-year check of an instrument
with configured archives, the archives are appended in place to the
stored check_paths list, so the mapping after the call differs from the
mapping before it (and a repeated resolution would start from the already
extended list). -/
theorem get_check_paths_mutates_config :
    get_check_paths id (fun _ => false) "srv" true [("org", "Organic")] "org" false 2
      [("hf", siC8)] "hf" =
      Except.ok ([("hf", { siC8 with check_paths := ["p", "a"] })], []) ∧
    [("hf", { siC8 with check_paths := ["p", "a"] })] ≠ [("hf", siC8)] :=
  ⟨rfl, by decide⟩

/-! ## get_metadata_bruker -/

/-- C4: for a title line of at least three tokens whose second token is
longer than three characters, the stored sample_info is the value of the
Python expression `[title[1][3:]].extend(title[2:])`, which is `None`, not
the concatenated list the specification describes. -/
theorem bruker_merged_token_sample_info_none :
    get_metadata_bruker ["grp abcdef sample", "proton DMSO"] "loc" =
      Except.ok
        { server_location := "loc", group := some "grp", initials := "abc",
          sample_info := none, experiment := some "proton", solvent := some "DMSO",
          frequency := none } := rfl

/-! ## copy_folder: numbered-candidate naming (C2) -/

/-- C2 counterexample: with `x` and `x-2` both present and holding
different measurements, the fresh copy goes to `x-2-3` (the suffixes
accumulate), not to `x-3` as the claim states, and the reported message
names `x-2-3`. -/
theorem cumulative_suffix_counterexample :
    (copy_folder destC2 srcC2 "x").2 = ["Spectrum found: x-2-3"] ∧
    lookupD (copy_folder destC2 srcC2 "x").1 "x-2-3" = some srcC2 ∧
    lookupD (copy_folder destC2 srcC2 "x").1 "x-3" = none ∧
    ("Spectrum found: x-2-3" : String) ≠ "Spectrum found: x-3" :=
  ⟨rfl, rfl, rfl, by decide⟩

/-- C2 (amended): when the desired target exists and holds a different
measurement, copy_folder retries against candidates whose names
accumulate suffixes (the n-th candidate appends `-n` to the (n-1)-th
candidate's name, giving `x-2`, `x-2-3`, ...); every candidate strictly
before the final one exists and compares as a different measurement, and
the search ends either at a non-existing cumulative name, which receives
the full fresh copy with exactly `["Spectrum found: <cumulative-name>"]`
returned, or at a same-measurement candidate, which is handled by the
repair/no-op logic. -/
theorem copy_folder_cumulative_suffix (dest : Dir) (src : FSTree) (target : String)
    (t0 : FSTree) (h1 : lookupD dest target = some t0)
    (h2 : (compare_spectra src t0).1 = false) :
    ∃ n, 1 < n ∧
      (∀ j, 1 < j → j < n → ∃ tj, lookupD dest (candName target j) = some tj ∧
        (compare_spectra src tj).1 = false) ∧
      ((lookupD dest (candName target n) = none ∧
        copy_folder dest src target =
          (insertD dest (candName target n) src,
           ["Spectrum found: " ++ candName target n])) ∨
       (∃ t inc, lookupD dest (candName target n) = some t ∧
         compare_spectra src t = (true, inc) ∧
         copy_folder dest src target = applyFix dest src (candName target n) t inc)) := by
  rcases hx : compare_spectra src t0 with ⟨b1, b2⟩
  have hb1 : b1 = false := by rw [hx] at h2; exact h2
  subst hb1
  have hsome := searchCandidate_isSome dest src (maxKeyLen dest + 2) target 1
    (by omega) (by omega)
  cases hs : searchCandidate dest src target 1 (maxKeyLen dest + 2) with
  | none => rw [hs] at hsome; simp at hsome
  | some r =>
    have hs1 : searchCandidate dest src (candName target 1) 1 (maxKeyLen dest + 2) =
        some r := hs
    obtain ⟨n, hn, hchain, hr⟩ :=
      searchCandidate_chain dest src target (maxKeyLen dest + 2) 1 r (by omega) hs1
    refine ⟨n, hn, hchain, ?_⟩
    rcases hr with ⟨hfr, hl⟩ | ⟨t, inc, hfr, hl, hc⟩
    · subst hfr
      exact Or.inl ⟨hl, by simp [copy_folder, h1, hx, hs]⟩
    · subst hfr
      exact Or.inr ⟨t, inc, hl, hc, by simp [copy_folder, h1, hx, hs]⟩

/-- Witness for C2 (amended) at the concrete fixtures. -/
theorem copy_folder_cumulative_suffix_witness :
    ∃ n, 1 < n ∧
      (∀ j, 1 < j → j < n → ∃ tj, lookupD destC2 (candName "x" j) = some tj ∧
        (compare_spectra srcC2 tj).1 = false) ∧
      ((lookupD destC2 (candName "x" n) = none ∧
        copy_folder destC2 srcC2 "x" =
          (insertD destC2 (candName "x" n) srcC2,
           ["Spectrum found: " ++ candName "x" n])) ∨
       (∃ t inc, lookupD destC2 (candName "x" n) = some t ∧
         compare_spectra srcC2 t = (true, inc) ∧
         copy_folder destC2 srcC2 "x" = applyFix destC2 srcC2 (candName "x" n) t inc)) :=
  copy_folder_cumulative_suffix destC2 srcC2 "x" (.dir [("fid", .file [1] 1)]) rfl rfl

/-! ## copy_folder: empty message list (C6) -/

/-- C6 counterexample: an invocation on a matched spectrum whose complete
copy already sits at the target returns the empty message list. -/
theorem copy_folder_no_message_counterexample :
    copy_folder destC6 srcC6 "x" = (destC6, []) := rfl

/-- C6 (amended): copy_folder returns at least one message except when an
existing candidate folder is confirmed to be a complete copy of the same
measurement; only in that case is the returned list empty, and then the
destination is left entirely unchanged. -/
theorem copy_folder_empty_iff_complete (dest : Dir) (src : FSTree) (target : String)
    (h : (copy_folder dest src target).2 = []) :
    (copy_folder dest src target).1 = dest ∧
    ∃ nm t, lookupD dest nm = some t ∧ compare_spectra src t = (true, false) := by
  rcases copy_folder_shape dest src target with
    ⟨nm, hl, he⟩ | ⟨nm, t, hl, hc, he⟩ | ⟨nm, t, hl, hc, he⟩
  · rw [he] at h; simp at h
  · rw [he] at h; simp at h
  · exact ⟨by rw [he], nm, t, hl, hc⟩

/-- Witness for C6 (amended) at the concrete fixtures. -/
theorem copy_folder_empty_iff_complete_witness :
    (copy_folder destC6 srcC6 "x").1 = destC6 ∧
    ∃ nm t, lookupD destC6 nm = some t ∧ compare_spectra srcC6 t = (true, false) :=
  copy_folder_empty_iff_complete destC6 srcC6 "x" rfl

/-! ## copy_folder: frame conditions (C1) -/

/-- C1: copy_folder never overwrites or deletes existing destination data:
(i) every top-level entry present in the destination before the call is
still present afterwards, with every one of its own entries (files or
subfolders) unchanged; (ii) a name absent from the destination either
stays absent or receives the full fresh copy of the source (announced with
a "Spectrum found" message) — so a full copy lands only on a name that did
not exist; (iii) whenever the tree stored under an existing name changes
at all, that name held a confirmed-same incomplete copy, its previously
present entries are all kept unchanged, and the entries it lacked are
taken exactly from the source (present in the result iff present in the
source). -/
theorem copy_folder_never_clobbers (dest : Dir) (src : FSTree) (target : String) :
    (∀ nm t, lookupD dest nm = some t →
      ∃ t', lookupD (copy_folder dest src target).1 nm = some t' ∧
        ∀ c x, lookupChild t c = some x → lookupChild t' c = some x) ∧
    (∀ nm, lookupD dest nm = none →
      lookupD (copy_folder dest src target).1 nm = none ∨
      (lookupD (copy_folder dest src target).1 nm = some src ∧
        (copy_folder dest src target).2 = ["Spectrum found: " ++ nm])) ∧
    (∀ nm t t', lookupD dest nm = some t →
      lookupD (copy_folder dest src target).1 nm = some t' → t' ≠ t →
      compare_spectra src t = (true, true) ∧
      (∀ c x, lookupChild t c = some x → lookupChild t' c = some x) ∧
      (∀ c, lookupChild t c = none → lookupChild t' c = lookupChild src c)) := by
  rcases copy_folder_shape dest src target with
    ⟨nm0, hl0, he⟩ | ⟨nm0, t0, hl0, hc0, he⟩ | ⟨nm0, t0, hl0, hc0, he⟩
  · -- full fresh copy to the absent name nm0
    refine ⟨?_, ?_, ?_⟩
    · intro nm t h
      rw [he]
      exact ⟨t, lookupS_append_some dest [(nm0, src)] nm t h, fun c x hx => hx⟩
    · intro nm h
      rw [he]
      by_cases hnm : nm = nm0
      · subst hnm
        refine Or.inr ⟨?_, rfl⟩
        rw [show (insertD dest nm src, ["Spectrum found: " ++ nm]).1 =
          dest ++ [(nm, src)] from rfl]
        rw [show lookupD (dest ++ [(nm, src)]) nm = lookupS (dest ++ [(nm, src)]) nm
          from rfl]
        rw [lookupS_append_none dest [(nm, src)] nm h]
        simp [lookupS]
      · left
        rw [show (insertD dest nm0 src, ["Spectrum found: " ++ nm0]).1 =
          dest ++ [(nm0, src)] from rfl]
        rw [show lookupD (dest ++ [(nm0, src)]) nm = lookupS (dest ++ [(nm0, src)]) nm
          from rfl]
        rw [lookupS_append_none dest [(nm0, src)] nm h]
        simp only [lookupS]
        rw [if_neg (fun hx : nm0 = nm => hnm hx.symm)]
    · intro nm t t' h1 h2 hne
      rw [he] at h2
      have h3 : lookupD (insertD dest nm0 src) nm = some t :=
        lookupS_append_some dest [(nm0, src)] nm t h1
      exact absurd (Option.some.inj (h3.symm.trans h2)).symm hne
  · -- repair of the incomplete same measurement at nm0
    refine ⟨?_, ?_, ?_⟩
    · intro nm t h
      rw [he]
      by_cases hnm : nm = nm0
      · subst hnm
        have ht : t = t0 := by
          rw [h] at hl0; exact Option.some.inj hl0
        refine ⟨_, lookupD_update_self dest nm _ t0 hl0, ?_⟩
        intro c x hx
        rw [ht] at hx
        exact repairChildren_keeps src.childrenL t0.childrenL c x hx
      · rw [show lookupD (updateD dest nm0
          (FSTree.dir (repairChildren t0.childrenL src.childrenL)),
          ["New files found for: " ++ nm0]).1 nm =
          lookupD (updateD dest nm0
            (FSTree.dir (repairChildren t0.childrenL src.childrenL))) nm from rfl]
        rw [lookupD_update_ne dest nm0 nm _ hnm]
        exact ⟨t, h, fun c x hx => hx⟩
    · intro nm h
      rw [he]
      left
      have hnm : nm ≠ nm0 := by
        intro hx; rw [hx, hl0] at h; exact Option.noConfusion h
      rw [show lookupD (updateD dest nm0
        (FSTree.dir (repairChildren t0.childrenL src.childrenL)),
        ["New files found for: " ++ nm0]).1 nm =
        lookupD (updateD dest nm0
          (FSTree.dir (repairChildren t0.childrenL src.childrenL))) nm from rfl]
      rw [lookupD_update_ne dest nm0 nm _ hnm]
      exact h
    · intro nm t t' h1 h2 hne
      rw [he] at h2
      by_cases hnm : nm = nm0
      · subst hnm
        have ht : t = t0 := by
          rw [h1] at hl0; exact Option.some.inj hl0
        have ht' : t' = FSTree.dir (repairChildren t0.childrenL src.childrenL) := by
          have := lookupD_update_self dest nm
            (FSTree.dir (repairChildren t0.childrenL src.childrenL)) t0 hl0
          rw [this] at h2
          exact (Option.some.inj h2).symm
        subst ht
        refine ⟨hc0, ?_, ?_⟩
        · intro c x hx
          rw [ht']
          exact repairChildren_keeps src.childrenL t.childrenL c x hx
        · intro c hcn
          rw [ht']
          exact repairChildren_missing src.childrenL t.childrenL c hcn
      · rw [lookupD_update_ne dest nm0 nm _ hnm] at h2
        rw [h1] at h2
        exact absurd (Option.some.inj h2).symm hne
  · -- complete same measurement: nothing changes
    refine ⟨?_, ?_, ?_⟩
    · intro nm t h
      rw [he]
      exact ⟨t, h, fun c x hx => hx⟩
    · intro nm h
      rw [he]
      exact Or.inl h
    · intro nm t t' h1 h2 hne
      rw [he] at h2
      rw [h1] at h2
      exact absurd (Option.some.inj h2).symm hne

/-- Witness for C1 at the concrete fixtures: after repairing the partial
copy at `x`, both entries already present there are preserved unchanged. -/
theorem copy_folder_never_clobbers_witness :
    ∃ t', lookupD (copy_folder destC1 srcC1 "x").1 "x" = some t' ∧
      ∀ c x, lookupChild (.dir [("fid", .file [1] 1), ("sub", .dir [])]) c = some x →
        lookupChild t' c = some x :=
  (copy_folder_never_clobbers destC1 srcC1 "x").1 "x"
    (.dir [("fid", .file [1] 1), ("sub", .dir [])]) rfl

/-! ## The match decision (C3) -/

/-- C3 counterexample: a full check over an Agilent folder named `abcd1`
searched with initials `bcd` copies the spectrum — the folder-name
substring pre-check alone makes it a match — even though the extracted
metadata initials are `abc`, which are not equal to `bcd`, and the
requester group is not the administrative wildcard.  Every string in this
scenario is ASCII, where the `asciiAlnum` instantiation of the classifier
oracle agrees with Python's `str.isalnum`. -/
theorem substring_match_counterexample :
    check_nmr asciiAlnum fedC3 worldC3 specsC3 [("g", "Group")] false "srv" [] "D" "T" =
      Except.ok ["No new spectra", "Spectrum found: d1_500",
        "Check of D completed at T"] ∧
    (get_metadata_agilent "abcd1" "hf/abcd1" [some ["a", "b", "c", "500,z"]]).map
      (fun m => m.initials) = Except.ok "abc" ∧
    fedC3.initials = "bcd" ∧ ("abc" : String) ≠ "bcd" ∧ fedC3.group ≠ "nmr" :=
  ⟨rfl, rfl, rfl, by decide, by decide⟩

/-- C3 (amended): for the Bruker format (where the flag enters the
equality tests as `false`) a folder is a match exactly under the
equality rule — metadata initials equal to the search initials, or the
administrative wildcard group `nmr` with the metadata group equal to the
search initials.  For the Agilent format the folder-name substring
pre-check is authoritative in the positive direction: the flag enters as
`true` and the equality tests can only confirm, never veto, so every
folder passing the pre-check is a match regardless of its metadata. -/
theorem match_rule (fi fg : String) (md : Metadata) :
    (metadata_hit fi fg md false = true ↔
      (md.initials = fi ∨ (fg = "nmr" ∧ md.group = some fi))) ∧
    metadata_hit fi fg md true = true := by
  unfold metadata_hit
  constructor
  · split_ifs with h1 h2
    · simp [h1]
    · simp [h1, h2]
    · simp [h1, h2]
  · split_ifs <;> rfl

/-! ## get_metadata_agilent frequency (C7) -/

theorem splitOnCharL_ne_nil (sep : Char) (l : List Char) : splitOnCharL sep l ≠ [] := by
  cases l with
  | nil => simp [splitOnCharL]
  | cons c rest =>
    simp only [splitOnCharL]
    split <;> simp

theorem pySplitComma_index0 (s : String) :
    pyIndex (pySplitComma s) 0 = Except.ok ((pySplitComma s).headD "") := by
  unfold pySplitComma
  cases h : splitOnCharL ',' s.data with
  | nil => exact absurd h (splitOnCharL_ne_nil ',' s.data)
  | cons x xs => simp [pyIndex]

theorem findSome?_append {α β : Type} (l1 l2 : List α) (f : α → Option β) :
    (l1 ++ l2).findSome? f =
      match l1.findSome? f with
      | some b => some b
      | none => l2.findSome? f := by
  induction l1 with
  | nil => simp
  | cons a rest ih =>
    simp only [List.cons_append, List.findSome?_cons]
    cases f a <;> simp [ih]

theorem agilentFreqStep_some (acc : Option String) (lines : List String)
    (h3 : 3 < lines.length) :
    agilentFreqStep acc (some lines) =
      Except.ok (some ((pySplitComma (lines.getD 3 "")).headD "")) := by
  have hget : lines[3]? = some (lines.getD 3 "") := by
    rw [List.getD_eq_getElem?_getD]
    cases hx : lines[3]? with
    | none =>
      rw [List.getElem?_eq_none_iff] at hx
      omega
    | some v => rfl
  have e1 : pyIndex lines 3 = Except.ok (lines.getD 3 "") := by
    unfold pyIndex
    rw [List.get?_eq_getElem?, hget]
  simp only [agilentFreqStep, e1, bind, Except.bind]
  rw [pySplitComma_index0]

theorem agilent_scan_from (subs : List (Option (List String))) :
    ∀ acc, (∀ lines ∈ subs.filterMap id, 3 < lines.length) →
      List.foldlM agilentFreqStep acc subs =
        Except.ok
          (match subs.reverse.findSome? id with
           | some lines => some ((pySplitComma (lines.getD 3 "")).headD "")
           | none => acc) := by
  induction subs with
  | nil => intro acc _; simp [List.foldlM, pure, Except.pure]
  | cons s rest ih =>
    intro acc h
    rw [List.foldlM_cons]
    cases s with
    | none =>
      have hfm : List.filterMap id (none :: rest) = List.filterMap id rest := rfl
      rw [hfm] at h
      have hstep : agilentFreqStep acc none = Except.ok acc := rfl
      rw [hstep]
      rw [show (Except.ok acc >>= fun b => List.foldlM agilentFreqStep b rest) =
        List.foldlM agilentFreqStep acc rest from rfl]
      rw [ih acc h]
      have hrev : (none :: rest).reverse =
          rest.reverse ++ [(none : Option (List String))] := by simp
      rw [hrev, findSome?_append]
      cases hf : rest.reverse.findSome? id <;> simp [List.findSome?]
    | some lines =>
      have hfm : List.filterMap id (some lines :: rest) =
          lines :: List.filterMap id rest := rfl
      rw [hfm] at h
      have h3 : 3 < lines.length := h lines (List.mem_cons_self _ _)
      rw [agilentFreqStep_some acc lines h3]
      rw [show (Except.ok (some ((pySplitComma (lines.getD 3 "")).headD "")) >>=
        fun b => List.foldlM agilentFreqStep b rest) =
        List.foldlM agilentFreqStep
          (some ((pySplitComma (lines.getD 3 "")).headD "")) rest from rfl]
      rw [ih _ (fun l2 hm => h l2 (List.mem_cons_of_mem _ hm))]
      have hrev : (some lines :: rest).reverse =
          rest.reverse ++ [some lines] := by simp
      rw [hrev, findSome?_append]
      cases hf : rest.reverse.findSome? id <;> simp [List.findSome?]

/-- C7 counterexample: with two subfolders each holding a `text` file, the
reported frequency comes from the second (last) one, not the first. -/
theorem agilent_freq_last_counterexample :
    (get_metadata_agilent "abcd1" "loc"
        [some ["a", "b", "c", "500,z"], some ["a", "b", "c", "600,y"]]).map
      (fun m => m.frequency) = Except.ok (some "600") ∧
    (some "600" : Option String) ≠ some "500" :=
  ⟨rfl, by decide⟩

/-- C7 (amended): get_metadata_agilent scans every immediate subfolder in
order with no early exit; each subfolder holding a `text` file overwrites
the frequency with the first comma-separated field of that file's 4th
line, so the resulting frequency comes from the last such subfolder (and
is absent when no subfolder holds a `text` file).  The hypothesis that
every `text` file has at least four lines rules out the `IndexError`
path. -/
theorem agilent_freq_last_subfolder (folderName serverLocation : String)
    (subs : List (Option (List String)))
    (h : ∀ lines ∈ subs.filterMap id, 3 < lines.length) :
    (get_metadata_agilent folderName serverLocation subs).map (fun m => m.frequency) =
      Except.ok ((subs.reverse.findSome? id).map
        (fun lines => (pySplitComma (lines.getD 3 "")).headD "")) := by
  unfold get_metadata_agilent agilent_freq_scan
  rw [agilent_scan_from subs none h]
  cases hf : subs.reverse.findSome? id <;>
    simp [hf, bind, Except.bind, Except.map]

/-- Witness for C7 (amended) at the concrete two-subfolder input. -/
theorem agilent_freq_last_subfolder_witness :
    (get_metadata_agilent "abcd1" "loc"
        [some ["a", "b", "c", "500,z"], some ["a", "b", "c", "600,y"]]).map
      (fun m => m.frequency) = Except.ok (some "600") :=
  (agilent_freq_last_subfolder "abcd1" "loc"
    [some ["a", "b", "c", "500,z"], some ["a", "b", "c", "600,y"]]
    (by decide)).trans (by rfl)

/-! ## Name sanitization (C5) -/

theorem replaceChar_mem (s : List Char) (x : Char) (r : List Char) (c : Char)
    (h : c ∈ replaceChar s x r) : c ∈ r ∨ (c ∈ s ∧ c ≠ x) := by
  unfold replaceChar at h
  rw [List.mem_flatMap] at h
  obtain ⟨a, ha, hc⟩ := h
  by_cases hax : a = x
  · subst hax
    rw [if_pos rfl] at hc
    exact Or.inl hc
  · rw [if_neg hax] at hc
    rw [List.mem_singleton] at hc
    subst hc
    exact Or.inr ⟨ha, hax⟩

theorem hexDigitChar_isAlphanum : ∀ d < 16, (hexDigitChar d).isAlphanum = true := by
  decide

theorem hexDigitsCore_isAlphanum :
    ∀ fuel n acc, (∀ c ∈ acc, c.isAlphanum = true) →
      ∀ c ∈ hexDigitsCore fuel n acc, c.isAlphanum = true := by
  intro fuel
  induction fuel with
  | zero => intro n acc h; exact h
  | succ f ih =>
    intro n acc hacc c hc
    simp only [hexDigitsCore] at hc
    split at hc
    · rename_i hlt
      rcases List.mem_cons.mp hc with rfl | hm
      · exact hexDigitChar_isAlphanum n hlt
      · exact hacc c hm
    · refine ih (n / 16) _ ?_ c hc
      intro c' hc'
      rcases List.mem_cons.mp hc' with rfl | hm
      · exact hexDigitChar_isAlphanum (n % 16) (Nat.mod_lt n (by omega))
      · exact hacc c' hm

theorem hexCode_not_special (alnum : Char → Bool)
    (hb : ∀ c : Char, c.isAlphanum = true → alnum c = true) (c0 : Char) :
    ∀ c ∈ hexCode c0, isSpecial alnum c = false := by
  intro c hc
  have halnum : c.isAlphanum = true := by
    unfold hexCode at hc
    rcases List.mem_cons.mp hc with rfl | hc2
    · decide
    rcases List.mem_cons.mp hc2 with rfl | hc3
    · decide
    · exact hexDigitsCore_isAlphanum (c0.toNat + 1) c0.toNat []
        (fun c' hc' => absurd hc' (List.not_mem_nil c')) c hc3
  unfold isSpecial
  rw [hb c halnum]
  rfl

theorem dedupSeen_covers : ∀ (l seen : List Char) (c : Char),
    c ∈ l → c ∈ seen ∨ c ∈ dedupSeen seen l := by
  intro l
  induction l with
  | nil => intro seen c h; cases h
  | cons a rest ih =>
    intro seen c h
    simp only [dedupSeen]
    rcases List.mem_cons.mp h with rfl | hm
    · by_cases ha : c ∈ seen
      · exact Or.inl ha
      · rw [if_neg ha]
        exact Or.inr (List.mem_cons_self _ _)
    · by_cases ha : a ∈ seen
      · rw [if_pos ha]
        exact ih seen c hm
      · rw [if_neg ha]
        rcases ih (a :: seen) c hm with hs | hd
        · rcases List.mem_cons.mp hs with rfl | hs2
          · exact Or.inr (List.mem_cons_self _ _)
          · exact Or.inl hs2
        · exact Or.inr (List.mem_cons_of_mem _ hd)

theorem sanitize_pending (alnum : Char → Bool)
    (hb : ∀ c : Char, c.isAlphanum = true → alnum c = true) :
    ∀ (pending : List Char) (s : List Char),
      (∀ c ∈ s, isSpecial alnum c = true → c ∈ pending) →
      ∀ c ∈ pending.foldl (fun acc x => replaceChar acc x (hexCode x)) s,
        isSpecial alnum c = false := by
  intro pending
  induction pending with
  | nil =>
    intro s h c hc
    cases hx : isSpecial alnum c
    · rfl
    · exact absurd (h c hc hx) (List.not_mem_nil c)
  | cons x rest ih =>
    intro s h c hc
    rw [List.foldl_cons] at hc
    refine ih (replaceChar s x (hexCode x)) ?_ c hc
    intro c' hc' hspec
    rcases replaceChar_mem s x (hexCode x) c' hc' with hr | ⟨hs, hne⟩
    · rw [hexCode_not_special alnum hb x c' hr] at hspec
      exact absurd hspec (by simp)
    · rcases List.mem_cons.mp (h c' hs hspec) with rfl | hm
      · exact absurd rfl hne
      · exact hm

theorem sanitize_no_special (alnum : Char → Bool)
    (hb : ∀ c : Char, c.isAlphanum = true → alnum c = true) (s : List Char) :
    ∀ c ∈ sanitize alnum s, isSpecial alnum c = false := by
  intro c hc
  refine sanitize_pending alnum hb (specialsIn alnum s) s ?_ c hc
  intro c' hc' hspec
  unfold specialsIn
  have hmem : c' ∈ s.filter (isSpecial alnum) := List.mem_filter.mpr ⟨hc', hspec⟩
  rcases dedupSeen_covers (s.filter (isSpecial alnum)) [] c' hmem with hs | hd
  · exact absurd hs (List.not_mem_nil c')
  · exact hd

theorem hexDigitVal_hexDigitChar : ∀ d < 16, hexDigitVal (hexDigitChar d) = d := by
  decide

theorem hexVal_foldl_from : ∀ (l : List Char) (a : Nat),
    l.foldl (fun a c => 16 * a + hexDigitVal c) a = a * 16 ^ l.length + hexVal l := by
  intro l
  induction l with
  | nil => intro a; simp [hexVal]
  | cons c rest ih =>
    intro a
    have hcons : hexVal (c :: rest) =
        hexDigitVal c * 16 ^ rest.length + hexVal rest := by
      have h0 : hexVal (c :: rest) =
          rest.foldl (fun a c => 16 * a + hexDigitVal c) (16 * 0 + hexDigitVal c) := rfl
      rw [h0, ih (16 * 0 + hexDigitVal c)]
      ring
    rw [List.foldl_cons, ih (16 * a + hexDigitVal c), hcons]
    simp only [List.length_cons]
    ring

theorem hexVal_cons (c : Char) (l : List Char) :
    hexVal (c :: l) = hexDigitVal c * 16 ^ l.length + hexVal l := by
  have h0 : hexVal (c :: l) =
      l.foldl (fun a c => 16 * a + hexDigitVal c) (16 * 0 + hexDigitVal c) := rfl
  rw [h0, hexVal_foldl_from l (16 * 0 + hexDigitVal c)]
  ring

theorem hexDigitsCore_val : ∀ (fuel n : Nat) (acc : List Char), n < 16 ^ fuel →
    hexVal (hexDigitsCore fuel n acc) = n * 16 ^ acc.length + hexVal acc := by
  intro fuel
  induction fuel with
  | zero =>
    intro n acc h
    have : n = 0 := by simpa using Nat.lt_one_iff.mp h
    subst this
    simp [hexDigitsCore]
  | succ f ih =>
    intro n acc h
    simp only [hexDigitsCore]
    split
    · rename_i hlt
      rw [hexVal_cons, hexDigitVal_hexDigitChar n hlt]
    · rename_i hge
      have hdiv : n / 16 < 16 ^ f := by
        rw [Nat.div_lt_iff_lt_mul (by omega)]
        calc n < 16 ^ (f + 1) := h
        _ = 16 ^ f * 16 := by ring
      rw [ih (n / 16) (hexDigitChar (n % 16) :: acc) hdiv]
      rw [hexVal_cons, hexDigitVal_hexDigitChar (n % 16) (Nat.mod_lt n (by omega))]
      have hnm : 16 * (n / 16) + n % 16 = n := Nat.div_add_mod n 16
      simp only [List.length_cons]
      calc n / 16 * 16 ^ (acc.length + 1) + (n % 16 * 16 ^ acc.length + hexVal acc)
          = (16 * (n / 16) + n % 16) * 16 ^ acc.length + hexVal acc := by ring
        _ = n * 16 ^ acc.length + hexVal acc := by rw [hnm]

theorem hexVal_hexDigits (n : Nat) : hexVal (hexDigits n) = n := by
  unfold hexDigits
  have hb : n < 16 ^ (n + 1) := by
    calc n < 2 ^ n := Nat.lt_two_pow n
    _ ≤ 16 ^ n := Nat.pow_le_pow_left (by omega) n
    _ ≤ 16 ^ (n + 1) := Nat.pow_le_pow_right (by omega) (Nat.le_succ n)
  rw [hexDigitsCore_val (n + 1) n [] hb]
  simp [hexVal]

theorem hexCode_injective (c1 c2 : Char) (h : hexCode c1 = hexCode c2) : c1 = c2 := by
  unfold hexCode at h
  simp only [List.cons.injEq, true_and] at h
  have hval : c1.toNat = c2.toNat := by
    have h1 := hexVal_hexDigits c1.toNat
    rw [h, hexVal_hexDigits] at h1
    exact h1.symm
  have := Char.ofNat_toNat c1
  rw [← this, hval, Char.ofNat_toNat]

theorem format_name_no_special (alnum : Char → Bool)
    (hb : ∀ c : Char, c.isAlphanum = true → alnum c = true)
    (parent fname : String) (m : Metadata) (g i s st : Bool) (nm : String)
    (h : format_name alnum parent fname m g i s st = some nm) :
    ∀ c ∈ nm.data, isSpecial alnum c = false := by
  intro c hc
  unfold format_name at h
  cases hsi : m.sample_info with
  | none => rw [hsi] at h; exact absurd h (by simp)
  | some sample =>
    rw [hsi] at h
    simp only [Option.some.injEq] at h
    rw [← h] at hc
    exact sanitize_no_special alnum hb _ c hc

/-- C5 counterexample: in the administrative style with the server path
included, the location is appended after sanitization with only the path
separators replaced, so a `.` from the server location survives into the
returned folder name.  Every character in this scenario is ASCII, where
the `asciiAlnum` instantiation of the classifier oracle agrees with
Python's `str.isalnum` (in particular both reject `.`). -/
theorem admin_path_unsanitized :
    format_name_admin asciiAlnum "p" "f" mC5 true .yes =
      some "a.b_g-abc-s-proton-CDCl3" ∧
    isSpecial asciiAlnum '.' = true ∧ '.' ∈ "a.b_g-abc-s-proton-CDCl3".data :=
  ⟨rfl, by decide, by decide⟩

/-- C5 (amended): for every alphanumeric classifier that accepts at least
the ASCII alphanumerics — as Python's Unicode-aware `str.isalnum` does —
every name returned by format_name (any flag combination) and by
format_name_admin without path inclusion contains no character the
sanitizer classifies as special, i.e. none that fails the classifier and
is not space, hyphen or underscore; each special character is replaced by
its hexadecimal Unicode code point (`0x...`), a replacement injective
across distinct characters.  Two caveats against the original claim:
characters the Unicode-aware classifier accepts but which lie outside
[A-Za-z0-9] (µ, α, é, ...) are kept verbatim (see unicode_alnum_kept
below), and with path inclusion format_name_admin concatenates the server
location — in which only `/` and `\` are replaced — after sanitization,
so other special characters of the location can survive. -/
theorem name_sanitization :
    (∀ (alnum : Char → Bool), (∀ c : Char, c.isAlphanum = true → alnum c = true) →
      ∀ (parent fname : String) (m : Metadata) (g i s st : Bool) (nm : String),
      format_name alnum parent fname m g i s st = some nm →
      ∀ c ∈ nm.data, isSpecial alnum c = false) ∧
    (∀ (alnum : Char → Bool), (∀ c : Char, c.isAlphanum = true → alnum c = true) →
      ∀ (parent fname : String) (m : Metadata) (s : Bool) (nm : String),
      format_name_admin alnum parent fname m s .no = some nm →
      ∀ c ∈ nm.data, isSpecial alnum c = false) ∧
    (∀ c1 c2 : Char, c1 ≠ c2 → hexCode c1 ≠ hexCode c2) := by
  refine ⟨format_name_no_special, ?_, ?_⟩
  · intro alnum hb parent fname m s nm h c hc
    unfold format_name_admin at h
    cases hf : format_name alnum parent fname m true true s false with
    | none => rw [hf] at h; exact absurd h (by simp)
    | some nm0 =>
      rw [hf] at h
      simp only [Option.map_some', Option.some.injEq] at h
      rw [← h] at hc
      exact format_name_no_special alnum hb parent fname m true true s false nm0 hf c hc
  · intro c1 c2 hne h
    exact hne (hexCode_injective c1 c2 h)

/-- Witness for C5 (amended): with the classifier instantiated at the
ASCII restriction — which agrees with `str.isalnum` on every character of
this input, the en dash being punctuation in Unicode too — a sample
description containing an en dash formats to a name whose characters are
all permitted. -/
theorem name_sanitization_witness :
    ("a0x2013b".data.all (fun c => !isSpecial asciiAlnum c)) = true := by
  have h := name_sanitization.1 asciiAlnum (fun _ hc => hc) "p" "f" mW5
    false false false false "a0x2013b" rfl
  rw [List.all_eq_true]
  intro c hc
  rw [h c hc]
  rfl

/-- Under any classifier that, like Python's `str.isalnum`, accepts the
ASCII alphanumerics and µ, format_name keeps µ verbatim: the program can
return names containing characters outside the ASCII class [A-Za-z0-9 _-],
which is part of what refutes the original reading of the claim. -/
theorem unicode_alnum_kept (alnum : Char → Bool)
    (hb : ∀ c : Char, c.isAlphanum = true → alnum c = true)
    (hmu : alnum 'µ' = true) :
    format_name alnum "p" "f" mU5 false false false false = some "aµb" := by
  have ha : isSpecial alnum 'a' = false := by
    unfold isSpecial
    rw [hb 'a' (by decide)]
    rfl
  have hm : isSpecial alnum 'µ' = false := by
    unfold isSpecial
    rw [hmu]
    rfl
  have hbc : isSpecial alnum 'b' = false := by
    unfold isSpecial
    rw [hb 'b' (by decide)]
    rfl
  have hfil : "aµb".data.filter (isSpecial alnum) = [] := by
    have hd : "aµb".data = ['a', 'µ', 'b'] := rfl
    rw [hd]
    simp [List.filter_cons, ha, hm, hbc]
  show some (sanitizeStr alnum "aµb") = some "aµb"
  unfold sanitizeStr sanitize specialsIn
  rw [hfil]
  rfl
